import Mathlib

/-!
Verification of the edit-distance engine and the Distle feedback filter
from `src/src/edit_dist_utils.py` and `src/src/distle_player.py`.

Strings are embedded as `List Char`.  The memoization structure built by
`get_edit_dist_table` is embedded as a function `Nat → Nat → Nat`
updated cell by cell in the same row-major order as the Python code;
reads go through `tget`, which resolves Python indices, including the
negative-index wrap-around of CPython (`memo_table[-1]` is the last
row), using the real dimensions `rows + 1` by `cols + 1` of the table.
All index expressions that occur in the source stay inside the range
`[-(len), len - 1]` on every reachable call, so total functions with a
default value agree with the Python semantics everywhere they are used.
-/

namespace EditDist

/-- Resolution of a Python sequence index: a negative index `k` on a
sequence of length `n` denotes position `k + n`. -/
def pyIdx (n : Nat) (k : Int) : Nat :=
  if k < 0 then (k + n).toNat else k.toNat

/-- Python `s[k]` on a character sequence (total, with an irrelevant
default that is never hit on reachable indices). -/
def sget (s : List Char) (k : Int) : Char :=
  s.getD (pyIdx s.length k) ' '

/-- Python `memo_table[i][j]` for a table of `rows + 1` rows and
`cols + 1` columns, with negative-index wrap-around. -/
def tget (rows cols : Nat) (t : Nat → Nat → Nat) (i j : Int) : Nat :=
  t (pyIdx (rows + 1) i) (pyIdx (cols + 1) j)

/-- In-place update `memo_table[i][j] = v` of the 2D structure. -/
def upd (t : Nat → Nat → Nat) (i j v : Nat) : Nat → Nat → Nat :=
  fun a b => if a = i ∧ b = j then v else t a b

/-- Body of the inner loop of `get_edit_dist_table` (source lines
42-58): the value written into cell `(r, c)`, computed from the table
state `t` at that moment.  Mirrors the source, including the guard
`row_index + col_index > 2` and the Python negative indices reached
through `r - 2`, `c - 2` when `r` or `c` equals 1. -/
def cellValue (row_str col_str : List Char) (t : Nat → Nat → Nat) (r c : Nat) : Nat :=
  let rows := row_str.length
  let cols := col_str.length
  let delete_value := tget rows cols t ((r : Int) - 1) (c : Int) + 1
  let insert_value := tget rows cols t (r : Int) ((c : Int) - 1) + 1
  let rep0 := tget rows cols t ((r : Int) - 1) ((c : Int) - 1)
  let replace_value :=
    if sget row_str ((r : Int) - 1) ≠ sget col_str ((c : Int) - 1) then rep0 + 1 else rep0
  let transpose_value :=
    if 2 < r + c ∧ sget row_str ((r : Int) - 1) = sget col_str ((c : Int) - 2) ∧
        sget row_str ((r : Int) - 2) = sget col_str ((c : Int) - 1) then
      tget rows cols t ((r : Int) - 2) ((c : Int) - 2) + 1
    else rows + cols + 1
  min (min (min delete_value insert_value) replace_value) transpose_value

/-- `get_edit_dist_table` (source lines 12-59): zero-initialised
`(rows+1) × (cols+1)` structure, first row and first column set to the
index, then the double loop over `row_index in range(1, rows + 1)`,
`col_index in range(1, cols + 1)` filling each cell from the current
state of the table. -/
def get_edit_dist_table (row_str col_str : List Char) : Nat → Nat → Nat :=
  let rows := row_str.length
  let cols := col_str.length
  let zeroTable : Nat → Nat → Nat := fun _ _ => 0
  let withTopRow := (List.range' 1 cols).foldl (fun t c => upd t 0 c c) zeroTable
  let withLeftCol := (List.range' 1 rows).foldl (fun t r => upd t r 0 r) withTopRow
  (List.range' 1 rows).foldl
    (fun t r =>
      (List.range' 1 cols).foldl
        (fun t c => upd t r c (cellValue row_str col_str t r c)) t)
    withLeftCol

/-- `edit_distance` (source lines 63-81): short-circuit on equal
strings, else `table[len(s0)][len(s1)]`. -/
def edit_distance (s0 s1 : List Char) : Nat :=
  if s0 = s1 then 0
  else get_edit_dist_table s0 s1 s0.length s1.length

/-- Local value `current_value` of the backtrace (source line 179). -/
def bt_current (s0 s1 : List Char) (memo : Nat → Nat → Nat) (i j : Nat) : Nat :=
  tget s0.length s1.length memo (i : Int) (j : Int)

/-- Local value `delete_value` of the backtrace (source line 182). -/
def bt_delete (s0 s1 : List Char) (memo : Nat → Nat → Nat) (i j : Nat) : Nat :=
  tget s0.length s1.length memo ((i : Int) - 1) (j : Int)

/-- Local value `insert_value` of the backtrace (source line 183). -/
def bt_insert (s0 s1 : List Char) (memo : Nat → Nat → Nat) (i j : Nat) : Nat :=
  tget s0.length s1.length memo (i : Int) ((j : Int) - 1)

/-- Local value `replace_value` of the backtrace (source lines
185-187): predecessor plus 1 exactly when the current characters
differ. -/
def bt_replace (s0 s1 : List Char) (memo : Nat → Nat → Nat) (i j : Nat) : Nat :=
  let rep0 := tget s0.length s1.length memo ((i : Int) - 1) ((j : Int) - 1)
  if sget s0 ((i : Int) - 1) ≠ sget s1 ((j : Int) - 1) then rep0 + 1 else rep0

/-- Local value `transpose_value` of the backtrace (source line 189):
note there is no `+ 1` here, unlike the table construction. -/
def bt_transpose (s0 s1 : List Char) (memo : Nat → Nat → Nat) (i j : Nat) : Nat :=
  tget s0.length s1.length memo ((i : Int) - 2) ((j : Int) - 2)

/-- The recursive helper `get_transformation` (source lines 152-213).
The Python function mutates `transform_list` in place and the root call
at source line 225 discards the returned reversed copy, so the
observable result is the final state of the accumulator, in append
order; that final state is what this embedding returns (at the base
case, at the stuck `else: return []` case, and on fuel exhaustion,
which is unreachable because every branch decreases `i + j` and callers
pass fuel `i + j + 1`). -/
def get_transformation (s0 s1 : List Char) (memo : Nat → Nat → Nat) :
    Nat → Nat → Nat → List String → List String
  | 0, _, _, acc => acc
  | fuel + 1, i, j, acc =>
    if i = 0 ∧ j = 0 then acc
    else if bt_replace s0 s1 memo i j ≤ bt_current s0 s1 memo i j ∧ 0 < i ∧ 0 < j then
      let acc2 := if sget s0 ((i : Int) - 1) ≠ sget s1 ((j : Int) - 1)
        then acc ++ ["R"] else acc
      get_transformation s0 s1 memo fuel (i - 1) (j - 1) acc2
    else if bt_transpose s0 s1 memo i j ≤ bt_current s0 s1 memo i j ∧ 1 < i ∧ 1 < j ∧
        sget s0 ((i : Int) - 1) = sget s1 ((j : Int) - 2) ∧
        sget s0 ((i : Int) - 2) = sget s1 ((j : Int) - 1) then
      get_transformation s0 s1 memo fuel (i - 2) (j - 2) (acc ++ ["T"])
    else if bt_insert s0 s1 memo i j ≤ bt_current s0 s1 memo i j ∧ 0 < j then
      get_transformation s0 s1 memo fuel i (j - 1) (acc ++ ["I"])
    else if bt_delete s0 s1 memo i j ≤ bt_current s0 s1 memo i j ∧ 0 < i then
      get_transformation s0 s1 memo fuel (i - 1) j (acc ++ ["D"])
    else acc

/-- `transformation_list_with_table` (source lines 131-227): the
empty-string shortcuts append all-Delete or all-Insert, otherwise the
recursive trace is rooted at `(len(s0), len(s1))`. -/
def transformation_list_with_table (s0 s1 : List Char)
    (complete_transform_list : List String) (table : Nat → Nat → Nat) : List String :=
  let row_index := s0.length
  let col_index := s1.length
  if col_index ≤ 0 then complete_transform_list ++ List.replicate row_index "D"
  else if row_index ≤ 0 then complete_transform_list ++ List.replicate col_index "I"
  else get_transformation s0 s1 table (row_index + col_index + 1)
    row_index col_index complete_transform_list

/-- `get_transformation_list_with_table` (source lines 117-129): the
`table` parameter is ignored; the body recomputes
`get_edit_dist_table(s0, s1)` and passes that. -/
def get_transformation_list_with_table (s0 s1 : List Char)
    (table : Nat → Nat → Nat) : List String :=
  transformation_list_with_table s0 s1 [] (get_edit_dist_table s0 s1)

/-- `get_transformation_list` (source lines 84-115). -/
def get_transformation_list (s0 s1 : List Char) : List String :=
  get_transformation_list_with_table s0 s1 (get_edit_dist_table s0 s1)

/-- `DistlePlayer.get_feedback` (source `distle_player.py` lines
98-121): the dictionary is replaced by the comprehension retaining the
words whose transformation list from the guess equals the observed
transforms; the `edit_dist` argument is unused by the body. -/
def get_feedback (dictionary : List (List Char)) (guess : List Char)
    (edit_dist : Nat) (transforms : List String) : List (List Char) :=
  dictionary.filter (fun word => transforms == get_transformation_list guess word)

/-- Modelled from the spec (section 4.1 recurrence, claim C1/C2
reference): the intended table, with the transpose candidate included
only when `i > 1`, `j > 1` and the two cross characters match.  Fuel
drives the recursion; `i + j + 1` is always sufficient since every
recursive call strictly decreases `i + j`. -/
def refTableF (s0 s1 : List Char) : Nat → Nat → Nat → Nat
  | 0, i, j => i + j
  | fuel + 1, i, j =>
    match i, j with
    | i, 0 => i
    | 0, j => j
    | i + 1, j + 1 =>
      let del := refTableF s0 s1 fuel i (j + 1) + 1
      let ins := refTableF s0 s1 fuel (i + 1) j + 1
      let rep := refTableF s0 s1 fuel i j +
        (if s0.getD i ' ' = s1.getD j ' ' then 0 else 1)
      let base := min (min del ins) rep
      if 0 < i ∧ 0 < j ∧ s0.getD i ' ' = s1.getD (j - 1) ' ' ∧
          s0.getD (i - 1) ' ' = s1.getD j ' ' then
        min base (refTableF s0 s1 fuel (i - 1) (j - 1) + 1)
      else base

/-- Modelled from the spec: the section 4.1 table at a cell. -/
def refTable (s0 s1 : List Char) (i j : Nat) : Nat :=
  refTableF s0 s1 (i + j + 1) i j

/-- Modelled from the spec (claim C2 reference backtrace): strict
priority Replace > Transpose > Insert > Delete, transpose eligible only
with predecessor `+ 1 ≤ v`, an equal-character diagonal move emits no
symbol, a zero index forces the all-Delete / all-Insert remainder, and
the output is in top-down order. -/
def refTraceF (s0 s1 : List Char) : Nat → Nat → Nat → List String
  | 0, _, _ => []
  | fuel + 1, i, j =>
    if i = 0 ∧ j = 0 then []
    else if j = 0 then List.replicate i "D"
    else if i = 0 then List.replicate j "I"
    else
      let v := refTable s0 s1 i j
      let rep := refTable s0 s1 (i - 1) (j - 1) +
        (if s0.getD (i - 1) ' ' = s1.getD (j - 1) ' ' then 0 else 1)
      if rep ≤ v then
        (if s0.getD (i - 1) ' ' = s1.getD (j - 1) ' ' then [] else ["R"]) ++
          refTraceF s0 s1 fuel (i - 1) (j - 1)
      else if 1 < i ∧ 1 < j ∧ s0.getD (i - 1) ' ' = s1.getD (j - 2) ' ' ∧
          s0.getD (i - 2) ' ' = s1.getD (j - 1) ' ' ∧
          refTable s0 s1 (i - 2) (j - 2) + 1 ≤ v then
        "T" :: refTraceF s0 s1 fuel (i - 2) (j - 2)
      else if refTable s0 s1 i (j - 1) ≤ v then
        "I" :: refTraceF s0 s1 fuel i (j - 1)
      else if refTable s0 s1 (i - 1) j ≤ v then
        "D" :: refTraceF s0 s1 fuel (i - 1) j
      else []

/-- Modelled from the spec: the reference transformation sequence. -/
def refTransformSequence (s0 s1 : List Char) : List String :=
  refTraceF s0 s1 (s0.length + s1.length + 1) s0.length s1.length

theorem pyIdx_natCast (n k : Nat) : pyIdx n (k : Int) = k := by
  unfold pyIdx; split <;> omega

theorem pyIdx_coe_sub_one (n r : Nat) (hr : 0 < r) : pyIdx n ((r : Int) - 1) = r - 1 := by
  unfold pyIdx; split <;> omega

theorem upd_self (t : Nat → Nat → Nat) (i j v : Nat) : upd t i j v i j = v := by
  simp [upd]

theorem upd_ne (t : Nat → Nat → Nat) (i j v a b : Nat) (h : ¬(a = i ∧ b = j)) :
    upd t i j v a b = t a b := by
  simp only [upd, if_neg h]

theorem foldl_topRow (n : Nat) :
    ∀ (s : Nat) (t : Nat → Nat → Nat) (a b : Nat),
      ((List.range' s n).foldl (fun t c => upd t 0 c c) t) a b
        = if a = 0 ∧ s ≤ b ∧ b < s + n then b else t a b := by
  induction n with
  | zero =>
    intro s t a b
    rw [List.range'_zero, List.foldl_nil, if_neg]
    omega
  | succ n ih =>
    intro s t a b
    rw [List.range'_succ, List.foldl_cons, ih (s + 1) _ a b]
    simp only [upd]
    split_ifs <;> omega

theorem foldl_leftCol (n : Nat) :
    ∀ (s : Nat) (t : Nat → Nat → Nat) (a b : Nat),
      ((List.range' s n).foldl (fun t r => upd t r 0 r) t) a b
        = if b = 0 ∧ s ≤ a ∧ a < s + n then a else t a b := by
  induction n with
  | zero =>
    intro s t a b
    rw [List.range'_zero, List.foldl_nil, if_neg]
    omega
  | succ n ih =>
    intro s t a b
    rw [List.range'_succ, List.foldl_cons, ih (s + 1) _ a b]
    simp only [upd]
    split_ifs <;> omega

theorem foldl_updRow_ne_row (g : (Nat → Nat → Nat) → Nat → Nat) (r : Nat) :
    ∀ (L : List Nat) (t : Nat → Nat → Nat) (a b : Nat), a ≠ r →
      (L.foldl (fun t c => upd t r c (g t c)) t) a b = t a b := by
  intro L
  induction L with
  | nil => intro t a b _; rfl
  | cons c L ih =>
    intro t a b ha
    rw [List.foldl_cons, ih _ a b ha, upd_ne]
    intro hc
    exact ha hc.1

theorem foldl_updRow_notMem (g : (Nat → Nat → Nat) → Nat → Nat) (r : Nat) :
    ∀ (L : List Nat) (t : Nat → Nat → Nat) (a b : Nat), b ∉ L →
      (L.foldl (fun t c => upd t r c (g t c)) t) a b = t a b := by
  intro L
  induction L with
  | nil => intro t a b _; rfl
  | cons c L ih =>
    intro t a b hb
    rw [List.mem_cons, not_or] at hb
    rw [List.foldl_cons, ih _ a b hb.2, upd_ne]
    intro hc
    exact hb.1 hc.2

theorem mainFold_border (s0 s1 : List Char) :
    ∀ (L : List Nat) (t : Nat → Nat → Nat) (a b : Nat),
      (∀ r ∈ L, 0 < r) → (a = 0 ∨ b = 0) →
      (L.foldl
        (fun t r => (List.range' 1 s1.length).foldl
          (fun t c => upd t r c (cellValue s0 s1 t r c)) t) t) a b = t a b := by
  intro L
  induction L with
  | nil => intro t a b _ _; rfl
  | cons r L ih =>
    intro t a b hL hab
    rw [List.foldl_cons, ih _ a b (fun x hx => hL x (List.mem_cons_of_mem r hx)) hab]
    rcases hab with ha | hb
    · exact foldl_updRow_ne_row _ r _ t a b
        (by have := hL r (List.mem_cons_self r L); omega)
    · refine foldl_updRow_notMem _ r _ t a b ?_
      subst hb
      simp [List.mem_range'_1]

theorem table_row0 (s0 s1 : List Char) (b : Nat) (hb : b ≤ s1.length) :
    get_edit_dist_table s0 s1 0 b = b := by
  simp only [get_edit_dist_table]
  rw [mainFold_border s0 s1 _ _ 0 b
      (fun r hr => by rw [List.mem_range'_1] at hr; omega) (Or.inl rfl)]
  rw [foldl_leftCol s0.length 1 _ 0 b, foldl_topRow s1.length 1 _ 0 b]
  split_ifs <;> omega

theorem table_col0 (s0 s1 : List Char) (a : Nat) (ha : a ≤ s0.length) :
    get_edit_dist_table s0 s1 a 0 = a := by
  simp only [get_edit_dist_table]
  rw [mainFold_border s0 s1 _ _ a 0
      (fun r hr => by rw [List.mem_range'_1] at hr; omega) (Or.inr rfl)]
  rw [foldl_leftCol s0.length 1 _ a 0, foldl_topRow s1.length 1 _ a 0]
  split_ifs <;> omega

theorem cellValue_diag (s : List Char) (t : Nat → Nat → Nat) (r : Nat) (hr : 0 < r)
    (h : t (r - 1) (r - 1) = 0) : cellValue s s t r r = 0 := by
  simp only [cellValue]
  rw [if_neg (fun hc => hc rfl)]
  rw [show tget s.length s.length t ((r : Int) - 1) ((r : Int) - 1) = 0 by
    simp only [tget]
    rw [pyIdx_coe_sub_one _ r hr]
    exact h]
  rw [Nat.min_zero, Nat.zero_min]

theorem init_diag (s0 s1 : List Char) (k : Nat) :
    ((List.range' 1 s0.length).foldl (fun t r => upd t r 0 r)
      ((List.range' 1 s1.length).foldl (fun t c => upd t 0 c c)
        (fun _ _ => 0))) k k = 0 := by
  rw [foldl_leftCol s0.length 1 _ k k, foldl_topRow s1.length 1 _ k k]
  split_ifs <;> omega

theorem innerFold_diag (s : List Char) (r : Nat) (hr : 0 < r)
    (T : Nat → Nat → Nat) (hT : ∀ k, T k k = 0) (k : Nat) :
    ((List.range' 1 s.length).foldl
      (fun t c => upd t r c (cellValue s s t r c)) T) k k = 0 := by
  by_cases hk : k = r
  · subst hk
    by_cases hle : k ≤ s.length
    · have hsplitA : List.range' 1 (k - 1) ++ [k] = List.range' 1 k := by
        have h1 : List.range' (1 + (k - 1)) 1 = [1 + (k - 1)] := by
          rw [List.range'_one]
        have h2 := List.range'_append_1 1 (k - 1) 1
        rw [h1] at h2
        have h3 : 1 + (k - 1) = k := by omega
        rw [h3] at h2
        exact h2
      have hsplitB : List.range' 1 k ++ List.range' (1 + k) (s.length - k) =
          List.range' 1 s.length := by
        rw [List.range'_append_1]
        congr 1
        omega
      rw [← hsplitB, List.foldl_append, ← hsplitA, List.foldl_append]
      rw [foldl_updRow_notMem]
      · rw [List.foldl_cons, List.foldl_nil]
        rw [upd_self]
        apply cellValue_diag s _ k hr
        rw [foldl_updRow_ne_row _ k _ T (k - 1) (k - 1) (by omega)]
        exact hT (k - 1)
      · simp [List.mem_range'_1]
    · rw [foldl_updRow_notMem]
      · exact hT k
      · rw [List.mem_range'_1]
        omega
  · rw [foldl_updRow_ne_row _ r _ T k k hk]
    exact hT k

theorem mainFold_diag (s : List Char) :
    ∀ (m : Nat) (t : Nat → Nat → Nat), (∀ k, t k k = 0) →
      ∀ k, ((List.range' 1 m).foldl
        (fun t r => (List.range' 1 s.length).foldl
          (fun t c => upd t r c (cellValue s s t r c)) t) t) k k = 0 := by
  intro m
  induction m with
  | zero => intro t ht k; rw [List.range'_zero, List.foldl_nil]; exact ht k
  | succ m ih =>
    intro t ht k
    have hsplit : List.range' 1 m ++ [1 + m] = List.range' 1 (m + 1) := by
      have h1 : List.range' (1 + m) 1 = [1 + m] := by rw [List.range'_one]
      have h2 := List.range'_append_1 1 m 1
      rw [h1] at h2
      rw [h2]
      congr 1
      omega
    rw [← hsplit, List.foldl_append, List.foldl_cons, List.foldl_nil]
    exact innerFold_diag s (1 + m) (by omega) _ (ih t ht) k

theorem table_diag (s : List Char) (k : Nat) : get_edit_dist_table s s k k = 0 := by
  simp only [get_edit_dist_table]
  exact mainFold_diag s s.length _ (init_diag s s) k

theorem walk_diag (s : List Char) (memo : Nat → Nat → Nat) (hmemo : ∀ k, memo k k = 0) :
    ∀ (k fuel : Nat) (acc : List String), k < fuel →
      get_transformation s s memo fuel k k acc = acc := by
  intro k
  induction k with
  | zero =>
    intro fuel acc hf
    obtain ⟨f, rfl⟩ : ∃ f, fuel = f + 1 := ⟨fuel - 1, by omega⟩
    simp [get_transformation]
  | succ k ih =>
    intro fuel acc hf
    obtain ⟨f, rfl⟩ : ∃ f, fuel = f + 1 := ⟨fuel - 1, by omega⟩
    have hcur : bt_current s s memo (k + 1) (k + 1) = 0 := by
      simp only [bt_current, tget]
      rw [pyIdx_natCast]
      exact hmemo (k + 1)
    have hrep : bt_replace s s memo (k + 1) (k + 1) = 0 := by
      simp only [bt_replace, tget]
      rw [if_neg (fun hc => hc rfl)]
      rw [pyIdx_coe_sub_one _ (k + 1) (Nat.succ_pos k)]
      simpa using hmemo k
    simp only [get_transformation]
    rw [if_neg (by omega : ¬(k + 1 = 0 ∧ k + 1 = 0))]
    rw [if_pos ⟨by rw [hcur, hrep], Nat.succ_pos k, Nat.succ_pos k⟩]
    rw [if_neg (fun hc => hc rfl)]
    simpa using ih f acc (by omega)

/-- C1 counterexample: for `row_str = "a"`, `col_str = "aaa"` the
returned table holds `table[1][3] = 1`, while the recurrence stated in
the claim (transpose excluded at `i = 1`) demands
`min(table[0][3]+1, table[1][2]+1, table[0][2]+0) = 2`.  The code takes
`memo_table[-1][1] + 1 = memo_table[1][1] + 1 = 1` through the Python
negative index allowed by its `row_index + col_index > 2` guard. -/
theorem C1_recurrence_violated :
    get_edit_dist_table ['a'] ['a', 'a', 'a'] 1 3 = 1 ∧
      min (min (get_edit_dist_table ['a'] ['a', 'a', 'a'] 0 3 + 1)
          (get_edit_dist_table ['a'] ['a', 'a', 'a'] 1 2 + 1))
        (get_edit_dist_table ['a'] ['a', 'a', 'a'] 0 2 + 0) = 2 := by
  decide

/-- C2 counterexample: for `s0 = "aa"`, `s1 = "aaab"` the code returns
`["R", "I", "I"]` while the reference backtrace of the claim yields
`["I", "I"]`. -/
theorem C2_trace_differs :
    get_transformation_list ['a', 'a'] ['a', 'a', 'a', 'b'] = ["R", "I", "I"] ∧
      refTransformSequence ['a', 'a'] ['a', 'a', 'a', 'b'] = ["I", "I"] := by
  decide

/-- C3 counterexample: for `s0 = "a"`, `s1 = "aaa"` the distance is
reported as 1 but the transformation list has length 2. -/
theorem C3_length_mismatch :
    edit_distance ['a'] ['a', 'a', 'a'] = 1 ∧
      (get_transformation_list ['a'] ['a', 'a', 'a']).length = 2 := by
  decide

/-- C4: the worked example holds on the code: distance 3 and the exact
canonical sequences `["T", "R", "D"]` and `["T", "R", "I"]`. -/
theorem C4_hack_fkc :
    edit_distance ['h', 'a', 'c', 'k'] ['f', 'k', 'c'] = 3 ∧
      get_transformation_list ['h', 'a', 'c', 'k'] ['f', 'k', 'c'] = ["T", "R", "D"] ∧
      get_transformation_list ['f', 'k', 'c'] ['h', 'a', 'c', 'k'] = ["T", "R", "I"] := by
  decide

/-- C5 counterexample: the triangle inequality fails on the code at
`s0 = ""`, `s1 = "a"`, `s2 = "aaa"`: the distances are 3, 1 and 1. -/
theorem C5_triangle_violated :
    ¬ (edit_distance [] ['a', 'a', 'a'] ≤
        edit_distance [] ['a'] + edit_distance ['a'] ['a', 'a', 'a']) := by
  decide

/-- C8 counterexample: the distance is not symmetric in value:
`edit_distance("aa", "aaaa") = 1` but `edit_distance("aaaa", "aa") = 2`. -/
theorem C8_asymmetric :
    edit_distance ['a', 'a'] ['a', 'a', 'a', 'a'] = 1 ∧
      edit_distance ['a', 'a', 'a', 'a'] ['a', 'a'] = 2 := by
  decide

/-- C10: `get_transformation_list_with_table` ignores its table
argument and rebuilds the table from `(s0, s1)`, so for every `t`
whatsoever it returns exactly `get_transformation_list s0 s1`. -/
theorem C10_table_argument_irrelevant (s0 s1 : List Char) (t : Nat → Nat → Nat) :
    get_transformation_list_with_table s0 s1 t = get_transformation_list s0 s1 := by
  rfl

/-- C9: after `get_feedback`, the dictionary is exactly the set of
previous words whose transformation list from the guess equals the
observed transforms, and in particular a subset of the previous
dictionary. -/
theorem C9_feedback_filters_exactly (dictionary : List (List Char)) (guess : List Char)
    (edit_dist : Nat) (transforms : List String) :
    (∀ w, w ∈ get_feedback dictionary guess edit_dist transforms ↔
        w ∈ dictionary ∧ get_transformation_list guess w = transforms) ∧
      get_feedback dictionary guess edit_dist transforms ⊆ dictionary := by
  constructor
  · intro w
    simp only [get_feedback, List.mem_filter, beq_iff_eq]
    exact ⟨fun h => ⟨h.1, h.2.symm⟩, fun h => ⟨h.1, h.2.symm⟩⟩
  · intro w hw
    exact (List.mem_filter.mp hw).1

/-- C6: for every string `s`, `edit_distance("", s) = len(s)` with an
all-Insert transformation list, and `edit_distance(s, "") = len(s)`
with an all-Delete transformation list. -/
theorem C6_empty_string_cases (s : List Char) :
    edit_distance [] s = s.length ∧
      get_transformation_list [] s = List.replicate s.length "I" ∧
      edit_distance s [] = s.length ∧
      get_transformation_list s [] = List.replicate s.length "D" := by
  refine ⟨?_, ?_, ?_, ?_⟩
  · cases s with
    | nil => rfl
    | cons c cs =>
      rw [edit_distance, if_neg (by simp)]
      exact table_row0 [] (c :: cs) (c :: cs).length (le_refl _)
  · cases s with
    | nil => rfl
    | cons c cs =>
      simp only [get_transformation_list, get_transformation_list_with_table,
        transformation_list_with_table, List.length_nil, List.length_cons]
      rw [if_neg (by omega), if_pos (le_refl 0)]
      rw [List.nil_append]
  · cases s with
    | nil => rfl
    | cons c cs =>
      rw [edit_distance, if_neg (by simp)]
      simpa using table_col0 (c :: cs) [] (c :: cs).length (le_refl _)
  · simp only [get_transformation_list, get_transformation_list_with_table,
      transformation_list_with_table, List.length_nil]
    rw [if_pos (le_refl 0), List.nil_append]

/-- C7: for every string `s`, `edit_distance(s, s) = 0` and
`get_transformation_list(s, s)` is empty: the short-circuit gives the
distance, and the backtrace of the table for `(s, s)`, whose diagonal
is identically zero, walks the diagonal emitting nothing. -/
theorem C7_identity (s : List Char) :
    edit_distance s s = 0 ∧ get_transformation_list s s = [] := by
  constructor
  · rw [edit_distance, if_pos rfl]
  · cases s with
    | nil => rfl
    | cons c cs =>
      simp only [get_transformation_list, get_transformation_list_with_table,
        transformation_list_with_table, List.length_cons]
      rw [if_neg (by omega), if_neg (by omega)]
      exact walk_diag (c :: cs) _ (table_diag (c :: cs)) (c :: cs).length _ []
        (by simp only [List.length_cons]; omega)

end EditDist
